import Mathlib

/-!
Shallow embedding of `lib/vdsm/executor.py`: a self-healing, bounded-capacity
thread-pool executor.  Pure data is translated directly; the effect of each
Python method is modelled as a function from state to state, paired with the
exception (if any) that escapes the call, and the concurrent worker loop is
modelled as a fold over a stream of per-iteration environment inputs (the item
dequeued, and whether the scheduler's discard callback ran during the
iteration).
-/

namespace Vdsm

/-- The module-level exceptions of `executor.py`: `NotRunning`,
`AlreadyStarted`, `TooManyTasks`, plus Python's `AssertionError` raised by
`_Worker._discard` on a double discard. -/
inductive Exn where
  | notRunning
  | alreadyStarted
  | tooManyTasks
  | assertionError
deriving DecidableEq, Repr

/-- Observable behaviour of a dispatched zero-argument callable when invoked:
it either returns normally or raises an exception. -/
inductive CallBehavior where
  | ok
  | raises
deriving DecidableEq, Repr

/-- `Task = collections.namedtuple("Task", "callable, timeout")`.  The callable
is represented by its observable behaviour when invoked. -/
structure Task where
  callable : CallBehavior
  timeout : Option Nat
deriving DecidableEq, Repr

/-- An item of the task queue: either a real `Task` or the module-level
`_STOP` sentinel object. -/
inductive QItem where
  | stop
  | task (t : Task)
deriving DecidableEq, Repr

/-- `TaskQueue`: bounded FIFO.  `_max_tasks` is the capacity, `_tasks` the
deque contents (head = left end). -/
structure TaskQueue where
  max_tasks : Nat
  tasks : List QItem
deriving DecidableEq, Repr

/-- `TaskQueue.__init__`: empty deque with the given capacity. -/
def TaskQueue.init (max_tasks : Nat) : TaskQueue :=
  { max_tasks := max_tasks, tasks := [] }

/-- `TaskQueue.put`: raise `TooManyTasks` when the deque already holds
`max_tasks` items (nothing is appended in that case), otherwise append the
item at the tail. -/
def TaskQueue.put (q : TaskQueue) (item : QItem) : Except Exn TaskQueue :=
  if q.tasks.length = q.max_tasks then .error .tooManyTasks
  else .ok { q with tasks := q.tasks ++ [item] }

/-- `TaskQueue.get`: pop the head.  `none` models the blocking wait on an
empty queue (the call does not return until an item arrives). -/
def TaskQueue.get (q : TaskQueue) : Option (QItem × TaskQueue) :=
  match q.tasks with
  | [] => none
  | x :: xs => some (x, { q with tasks := xs })

/-- `TaskQueue.clear`: empty the deque. -/
def TaskQueue.clear (q : TaskQueue) : TaskQueue :=
  { q with tasks := [] }

/-- The mutable state of an `Executor` instance.  `created` is a history
variable recording, in order, the name of every worker ever spawned by
`_add_worker`; it is only appended to and lets us reason about workers that
have since left the live set. -/
structure ExecutorState where
  name : String
  workers_count : Nat
  worker_id : Nat
  tasks : TaskQueue
  workers : List String
  running : Bool
  created : List String
deriving DecidableEq, Repr

/-- `Executor.__init__(name, workers_count, max_tasks, scheduler)`. -/
def ExecutorState.init (name : String) (workers_count max_tasks : Nat) :
    ExecutorState :=
  { name := name, workers_count := workers_count, worker_id := 0,
    tasks := TaskQueue.init max_tasks, workers := [], running := false,
    created := [] }

/-- The name format of `Executor._add_worker`:
`"%s/%d" % (self.name, self._worker_id)`. -/
def workerName (nm : String) (i : Nat) : String :=
  nm ++ "/" ++ Nat.repr i

/-- The name a worker spawned now would receive. -/
def ExecutorState.next_worker_name (e : ExecutorState) : String :=
  workerName e.name e.worker_id

/-- `Executor._add_worker`: build the worker's name from the current
`_worker_id`, increment the counter, and add the new worker to the live set
(recorded here by its name; the history variable `created` is appended too). -/
def add_worker (e : ExecutorState) : ExecutorState :=
  { e with worker_id := e.worker_id + 1,
           workers := e.workers ++ [e.next_worker_name],
           created := e.created ++ [e.next_worker_name] }

/-- The `for _ in range(n): self._add_worker()` loop of `Executor.start`. -/
def addWorkers (e : ExecutorState) : Nat → ExecutorState
  | 0 => e
  | n + 1 => addWorkers (add_worker e) n

/-- `Executor.start`: raise `AlreadyStarted` when already running, otherwise
set `running` and spawn `workers_count` workers. -/
def start (e : ExecutorState) : ExecutorState × Option Exn :=
  if e.running then (e, some .alreadyStarted)
  else (addWorkers { e with running := true } e.workers_count, none)

/-- The `for _ in range(workers_count): self._tasks.put(_STOP)` loop of
`Executor.stop`: put sentinels one at a time; a `TooManyTasks` raised by a
put escapes, keeping the queue state reached so far. -/
def putStops (q : TaskQueue) : Nat → TaskQueue × Option Exn
  | 0 => (q, none)
  | n + 1 =>
    match q.put .stop with
    | .error ex => (q, some ex)
    | .ok q' => putStops q' n

/-- `Executor.stop` (state changes of the locked section): set `running` to
false, clear the queue, then enqueue one `_STOP` sentinel per configured
worker slot.  Thread joining is not modelled. -/
def stop (e : ExecutorState) : ExecutorState × Option Exn :=
  let e1 := { e with running := false, tasks := e.tasks.clear }
  let r := putStops e1.tasks e1.workers_count
  ({ e1 with tasks := r.1 }, r.2)

/-- `Executor.dispatch(callable, timeout=None)`: raise `NotRunning` when not
running, otherwise wrap the callable and timeout into a `Task` and put it on
the queue, propagating `TooManyTasks`. -/
def dispatch (e : ExecutorState) (callable : CallBehavior)
    (timeout : Option Nat) : ExecutorState × Option Exn :=
  if e.running then
    match e.tasks.put (.task { callable := callable, timeout := timeout }) with
    | .error ex => (e, some ex)
    | .ok q => ({ e with tasks := q }, none)
  else (e, some .notRunning)

/-- `Executor._worker_discarded`: under the lock, spawn one replacement
worker when still running; otherwise only log. -/
def worker_discarded (e : ExecutorState) : ExecutorState :=
  if e.running then add_worker e else e

/-- `Executor._worker_stopped`: remove the worker from the live set. -/
def worker_stopped (e : ExecutorState) (w : String) : ExecutorState :=
  { e with workers := e.workers.erase w }

/-- `Executor._next_task`: dequeue; a `_STOP` sentinel is turned into a
`NotRunning` exception, a real task is returned.  `none` models the blocking
wait on an empty queue. -/
def next_task (q : TaskQueue) : Option (Except Exn Task × TaskQueue) :=
  match q.get with
  | none => none
  | some (.stop, q') => some (.error .notRunning, q')
  | some (.task t, q') => some (.ok t, q')

/-! ### The worker loop -/

/-- The per-thread state of a `_Worker`: its `_discarded` flag. -/
structure WorkerState where
  discarded : Bool
deriving DecidableEq, Repr

/-- Observable events of one worker thread, in program order. -/
inductive Event where
  | fetched (item : QItem)
  | timerArmed (timeout : Nat)
  | invoked (t : Task)
  | loggedException (t : Task)
  | timerCancelled
  | stoppedNotified
deriving DecidableEq, Repr

/-- The environment of one iteration of `_Worker._execute_task`: the item the
queue hands the worker, and whether the scheduler thread ran this worker's
`_discard` callback during the iteration (before the `finally` check of the
`_discarded` flag). -/
structure IterInput where
  item : QItem
  timerFires : Bool
deriving DecidableEq, Repr

/-- How an iteration of the worker loop terminates, when it does: the
`NotRunning` raised on a `_STOP` sentinel, or the `_WorkerDiscarded` raised
in the `finally` block when the `_discarded` flag is set. -/
inductive IterExit where
  | notRunning
  | workerDiscarded
deriving DecidableEq, Repr

/-- `_Worker._execute_task`: fetch (a `_STOP` raises `NotRunning` at once);
arm a timer when the task has a timeout; invoke the callable, logging (and
swallowing) any exception it raises; in the `finally` block cancel the timer
and, when the `_discarded` flag is set, raise `_WorkerDiscarded`.
Returns the new flag state, the events in order, and the exception ending the
iteration, if any. -/
def execute_task (w : WorkerState) (inp : IterInput) :
    WorkerState × List Event × Option IterExit :=
  match inp.item with
  | .stop => (w, [.fetched .stop], some .notRunning)
  | .task t =>
    let armEvents : List Event :=
      match t.timeout with
      | some d => [.timerArmed d]
      | none => []
    let callEvents : List Event :=
      match t.callable with
      | .ok => [.invoked t]
      | .raises => [.invoked t, .loggedException t]
    let cancelEvents : List Event :=
      match t.timeout with
      | some _ => [.timerCancelled]
      | none => []
    let w' : WorkerState :=
      { discarded := w.discarded || (inp.timerFires && t.timeout.isSome) }
    (w', [.fetched (.task t)] ++ armEvents ++ callEvents ++ cancelEvents,
     if w'.discarded then some .workerDiscarded else none)

/-- Result of running the worker loop on a stream of iteration inputs:
final flag state, events, the exit reason (`none` while the loop is still
going, i.e. the stream ran out without an exit), and how many times the
worker fetched from the queue. -/
structure RunResult where
  w : WorkerState
  events : List Event
  exitReason : Option IterExit
  fetches : Nat
deriving DecidableEq, Repr

/-- `_Worker._run`: loop `_execute_task` until it raises; the `finally`
clause notifies the executor (`_worker_stopped`) exactly once on exit. -/
def runWorker (w : WorkerState) : List IterInput → RunResult
  | [] => { w := w, events := [], exitReason := none, fetches := 0 }
  | inp :: rest =>
    match h : execute_task w inp with
    | (w', evs, some ex) =>
      { w := w', events := evs ++ [.stoppedNotified], exitReason := some ex,
        fetches := 1 }
    | (w', evs, none) =>
      let r := runWorker w' rest
      { w := r.w, events := evs ++ r.events, exitReason := r.exitReason,
        fetches := r.fetches + 1 }

/-- `_Worker._discard` together with its notification to the executor:
a second discard raises `AssertionError`; a first discard sets the flag and
calls `Executor._worker_discarded` exactly once (the returned `Nat` counts
those notifications). -/
def discard (w : WorkerState) (e : ExecutorState) :
    Except Exn (WorkerState × ExecutorState × Nat) :=
  if w.discarded then .error .assertionError
  else .ok ({ discarded := true }, worker_discarded e, 1)

/-! ### Operation sequences, for the invariants -/

/-- A queue-facing operation, for reasoning about arbitrary interleavings of
`put`, `get` and `clear`. -/
inductive QOp where
  | put (item : QItem)
  | get
  | clear
deriving DecidableEq, Repr

/-- Apply one queue operation; a failed `put` leaves the queue unchanged
(the exception is raised before any mutation) and a `get` on an empty queue
blocks, which mutates nothing. -/
def applyQOp (q : TaskQueue) : QOp → TaskQueue
  | .put item =>
    match q.put item with
    | .error _ => q
    | .ok q' => q'
  | .get =>
    match q.get with
    | none => q
    | some (_, q') => q'
  | .clear => q.clear

/-- Apply a sequence of queue operations in order. -/
def applyQOps (q : TaskQueue) : List QOp → TaskQueue
  | [] => q
  | op :: ops => applyQOps (applyQOp q op) ops

/-- `putAll`: put the items of a list in order, stopping at the first
failure. -/
def putAll (q : TaskQueue) : List QItem → Except Exn TaskQueue
  | [] => .ok q
  | x :: xs =>
    match q.put x with
    | .error ex => .error ex
    | .ok q' => putAll q' xs

/-- Repeatedly `get` until the queue blocks, collecting the returned items in
order. -/
def drain (q : TaskQueue) : List QItem :=
  match h : q.get with
  | none => []
  | some (x, q') => x :: drain q'
  termination_by q.tasks.length
  decreasing_by
    simp only [TaskQueue.get] at h
    split at h
    · exact absurd h (by simp)
    · simp only [Option.some.injEq, Prod.mk.injEq] at h
      obtain ⟨-, rfl⟩ := h
      simp_all

/-- An executor-facing call, for reasoning about arbitrary call sequences. -/
inductive ExOp where
  | opStart
  | opStop
  | opDispatch (callable : CallBehavior) (timeout : Option Nat)
  | opWorkerDiscarded
  | opWorkerStopped (w : String)
deriving DecidableEq, Repr

/-- Apply one executor-facing call, discarding any raised exception (the
state reached when the exception escapes is kept, as in Python). -/
def applyExOp (e : ExecutorState) : ExOp → ExecutorState
  | .opStart => (start e).1
  | .opStop => (stop e).1
  | .opDispatch c t => (dispatch e c t).1
  | .opWorkerDiscarded => worker_discarded e
  | .opWorkerStopped w => worker_stopped e w

/-- Apply a sequence of executor-facing calls in order. -/
def applyExOps (e : ExecutorState) : List ExOp → ExecutorState
  | [] => e
  | op :: ops => applyExOps (applyExOp e op) ops

/-! ### Decimal representation, for worker-name distinctness -/

/-- Fuel-free decimal rendering of a natural number, the specification of
`Nat.toDigits 10`. -/
def natDecimal (n : Nat) : List Char :=
  if h : n < 10 then [Nat.digitChar n]
  else natDecimal (n / 10) ++ [Nat.digitChar (n % 10)]
  termination_by n
  decreasing_by
    exact Nat.div_lt_self (by omega) (by omega)

/-! ## Helper lemmas -/

theorem put_eq (q : TaskQueue) (item : QItem) :
    q.put item = if q.tasks.length = q.max_tasks then .error .tooManyTasks
                 else .ok { q with tasks := q.tasks ++ [item] } := rfl

theorem put_ok_tasks (q : TaskQueue) (item : QItem) (q' : TaskQueue)
    (h : q.put item = .ok q') :
    q'.tasks = q.tasks ++ [item] ∧ q'.max_tasks = q.max_tasks := by
  rw [put_eq] at h
  split at h
  · exact absurd h (by simp)
  · cases h with
    | refl => exact ⟨rfl, rfl⟩

theorem applyQOp_bound (q : TaskQueue) (op : QOp)
    (h : q.tasks.length ≤ q.max_tasks) :
    (applyQOp q op).tasks.length ≤ q.max_tasks
    ∧ (applyQOp q op).max_tasks = q.max_tasks := by
  cases op with
  | put item =>
    by_cases hc : q.tasks.length = q.max_tasks
    · simp [applyQOp, put_eq, hc]
    · simp only [applyQOp, put_eq, if_neg hc]
      constructor
      · simp only [List.length_append, List.length_cons, List.length_nil]
        omega
      · trivial
  | get =>
    cases hq : q.tasks with
    | nil => simpa [applyQOp, TaskQueue.get, hq] using h
    | cons x xs =>
      simp only [applyQOp, TaskQueue.get, hq]
      constructor
      · have : xs.length + 1 ≤ q.max_tasks := by
          simpa [hq] using h
        omega
      · trivial
  | clear => simp [applyQOp, TaskQueue.clear]

theorem applyQOps_bound (ops : List QOp) :
    ∀ q : TaskQueue, q.tasks.length ≤ q.max_tasks →
      (applyQOps q ops).tasks.length ≤ q.max_tasks
      ∧ (applyQOps q ops).max_tasks = q.max_tasks := by
  induction ops with
  | nil => intro q h; exact ⟨h, rfl⟩
  | cons op ops ih =>
    intro q h
    obtain ⟨h1, h2⟩ := applyQOp_bound q op h
    obtain ⟨h3, h4⟩ := ih (applyQOp q op) (h2 ▸ h1)
    exact ⟨h2 ▸ h3, h2 ▸ h4⟩

theorem putAll_ok (xs : List QItem) :
    ∀ q q' : TaskQueue, putAll q xs = .ok q' →
      q'.tasks = q.tasks ++ q'.tasks.drop q.tasks.length
      ∧ q'.tasks = q.tasks ++ xs ∧ q'.max_tasks = q.max_tasks := by
  induction xs with
  | nil =>
    intro q q' h
    simp only [putAll] at h
    cases h with
    | refl => simp
  | cons x xs ih =>
    intro q q' h
    simp only [putAll] at h
    cases hp : q.put x with
    | error ex => rw [hp] at h; exact absurd h (by simp)
    | ok q1 =>
      rw [hp] at h
      obtain ⟨ht, hm⟩ := put_ok_tasks q x q1 hp
      obtain ⟨-, h2, h3⟩ := ih q1 q' h
      refine ⟨?_, ?_, ?_⟩
      · rw [h2, ht, List.append_assoc]
        simp
      · rw [h2, ht, List.append_assoc]
        rfl
      · rw [h3, hm]

theorem drain_tasks (l : List QItem) : ∀ m : Nat, drain ⟨m, l⟩ = l := by
  induction l with
  | nil =>
    intro m
    rw [drain]
    rfl
  | cons x xs ih =>
    intro m
    rw [drain]
    simpa [TaskQueue.get] using ih m

theorem drain_eq (q : TaskQueue) : drain q = q.tasks := by
  cases q with
  | mk m l => exact drain_tasks l m

/-! ## Claim theorems -/

/-- C6: `put` on a `TaskQueue` already holding `max_tasks` items raises
`TooManyTasks` and leaves the queue unchanged, and consequently (starting
from an empty queue of capacity `m`) no sequence of put/get/clear operations
ever makes the queue hold more than `m` items. -/
theorem taskQueue_bounded (m : Nat) (ops : List QOp) (q : TaskQueue)
    (item : QItem) (h : q.tasks.length = q.max_tasks) :
    q.put item = .error .tooManyTasks
    ∧ applyQOp q (.put item) = q
    ∧ (applyQOps (TaskQueue.init m) ops).tasks.length ≤ m := by
  refine ⟨by simp [put_eq, h], by simp [applyQOp, put_eq, h], ?_⟩
  simpa [TaskQueue.init] using
    (applyQOps_bound ops (TaskQueue.init m) (by simp [TaskQueue.init])).1

theorem taskQueue_bounded_witness :
    TaskQueue.put ⟨1, [.stop]⟩ .stop = .error .tooManyTasks
    ∧ applyQOp ⟨1, [.stop]⟩ (.put .stop) = ⟨1, [.stop]⟩
    ∧ (applyQOps (TaskQueue.init 2)
        [.put .stop, .put .stop, .put .stop, .get]).tasks.length ≤ 2 :=
  taskQueue_bounded 2 [.put .stop, .put .stop, .put .stop, .get]
    ⟨1, [.stop]⟩ .stop rfl

/-- C9: a sequence of successful puts starting from an empty queue leaves the
items in the queue in submission order; repeated gets (`drain`) return them
in exactly that order, and `get` always removes and returns the head while
`put` appends at the tail. -/
theorem fifo_order (m : Nat) (xs : List QItem) (q : TaskQueue)
    (h : putAll (TaskQueue.init m) xs = .ok q) :
    q.tasks = xs
    ∧ drain q = xs
    ∧ (∀ hd tl, q.tasks = hd :: tl → q.get = some (hd, { q with tasks := tl })) := by
  obtain ⟨-, h2, -⟩ := putAll_ok xs (TaskQueue.init m) q h
  have hx : q.tasks = xs := by simpa [TaskQueue.init] using h2
  refine ⟨hx, by rw [drain_eq, hx], ?_⟩
  intro hd tl hht
  simp [TaskQueue.get, hht]

theorem fifo_order_witness :
    ({ max_tasks := 2,
       tasks := [QItem.task ⟨.ok, none⟩, QItem.task ⟨.raises, some 3⟩] } :
      TaskQueue).tasks = [QItem.task ⟨.ok, none⟩, QItem.task ⟨.raises, some 3⟩]
    ∧ drain { max_tasks := 2,
              tasks := [QItem.task ⟨.ok, none⟩, QItem.task ⟨.raises, some 3⟩] }
        = [QItem.task ⟨.ok, none⟩, QItem.task ⟨.raises, some 3⟩] :=
  ⟨(fifo_order 2 [QItem.task ⟨.ok, none⟩, QItem.task ⟨.raises, some 3⟩] _
      rfl).1,
   (fifo_order 2 [QItem.task ⟨.ok, none⟩, QItem.task ⟨.raises, some 3⟩] _
      rfl).2.1⟩

/-- C7: `dispatch` raises `NotRunning` (enqueuing nothing) whenever the
executor is not running; when running and the queue is below capacity it
appends exactly one `Task` wrapping the callable and timeout; when running
and the queue is at capacity it propagates `TooManyTasks` and enqueues
nothing. -/
theorem dispatch_semantics (e : ExecutorState) (c : CallBehavior)
    (t : Option Nat) :
    (e.running = false → dispatch e c t = (e, some .notRunning))
    ∧ (e.running = true → e.tasks.tasks.length = e.tasks.max_tasks →
        dispatch e c t = (e, some .tooManyTasks))
    ∧ (e.running = true → e.tasks.tasks.length ≠ e.tasks.max_tasks →
        (dispatch e c t).2 = none
        ∧ (dispatch e c t).1.tasks.tasks
            = e.tasks.tasks ++ [.task { callable := c, timeout := t }]
        ∧ (dispatch e c t).1.workers = e.workers
        ∧ (dispatch e c t).1.running = e.running) := by
  refine ⟨fun h => ?_, fun h hc => ?_, fun h hc => ?_⟩
  · simp [dispatch, h]
  · simp [dispatch, h, put_eq, hc]
  · simp [dispatch, h, put_eq, hc]

theorem dispatch_semantics_witness :
    dispatch (ExecutorState.init "x" 1 2) .ok none
      = (ExecutorState.init "x" 1 2, some .notRunning)
    ∧ dispatch { ExecutorState.init "x" 1 0 with running := true } .ok none
      = ({ ExecutorState.init "x" 1 0 with running := true },
         some .tooManyTasks)
    ∧ (dispatch { ExecutorState.init "x" 1 2 with running := true }
        .raises (some 7)).2 = none
    ∧ (dispatch { ExecutorState.init "x" 1 2 with running := true }
        .raises (some 7)).1.tasks.tasks
        = [.task { callable := .raises, timeout := some 7 }] :=
  ⟨(dispatch_semantics (ExecutorState.init "x" 1 2) .ok none).1 rfl,
   (dispatch_semantics _ .ok none).2.1 rfl rfl,
   ((dispatch_semantics _ .raises (some 7)).2.2 rfl (by decide)).1,
   by
    have h := ((dispatch_semantics
      { ExecutorState.init "x" 1 2 with running := true }
      .raises (some 7)).2.2 rfl (by decide)).2.1
    simpa [ExecutorState.init, TaskQueue.init] using h⟩

theorem addWorkers_proj (n : Nat) : ∀ e : ExecutorState,
    (addWorkers e n).running = e.running
    ∧ (addWorkers e n).name = e.name
    ∧ (addWorkers e n).workers_count = e.workers_count
    ∧ (addWorkers e n).tasks = e.tasks
    ∧ (addWorkers e n).worker_id = e.worker_id + n
    ∧ (addWorkers e n).created
        = e.created ++ (List.range n).map (fun i => workerName e.name (e.worker_id + i)) := by
  induction n with
  | zero => intro e; simp [addWorkers]
  | succ n ih =>
    intro e
    obtain ⟨h1, h2, h3, h4, h5, h6⟩ := ih (add_worker e)
    have hfun : (fun i => workerName e.name (e.worker_id + 1 + i))
        = (fun i => workerName e.name (e.worker_id + (i + 1))) := by
      funext i
      have : e.worker_id + 1 + i = e.worker_id + (i + 1) := by omega
      rw [this]
    refine ⟨?_, ?_, ?_, ?_, ?_, ?_⟩
    · rw [addWorkers, h1]; rfl
    · rw [addWorkers, h2]; rfl
    · rw [addWorkers, h3]; rfl
    · rw [addWorkers, h4]; rfl
    · rw [addWorkers, h5]; simp [add_worker]; omega
    · rw [addWorkers, h6]
      simp only [add_worker, ExecutorState.next_worker_name]
      rw [List.range_succ_eq_map]
      simp only [List.map_cons, List.map_map, List.append_assoc,
        List.singleton_append, Function.comp]
      rw [hfun]
      simp [Nat.add_comm]

/-- C2: a worker-discarded notification spawns exactly one replacement
worker (appended to the live set) when the executor is still running, and
changes nothing at all when it is not running. -/
theorem worker_discarded_semantics (e : ExecutorState) :
    (worker_discarded e).workers
      = (if e.running then e.workers ++ [e.next_worker_name] else e.workers)
    ∧ (worker_discarded e).workers.length
      = e.workers.length + (if e.running then 1 else 0)
    ∧ (worker_discarded e = e ↔ e.running = false) := by
  refine ⟨?_, ?_, ?_, ?_⟩
  · by_cases h : e.running <;> simp [worker_discarded, add_worker, h]
  · by_cases h : e.running <;> simp [worker_discarded, add_worker, h]
  · intro hEq
    by_cases h : e.running
    · exfalso
      have hw := congrArg ExecutorState.worker_id hEq
      simp [worker_discarded, add_worker, h] at hw
    · simpa using h
  · intro h
    simp [worker_discarded, h]

/-- C3: discarding a worker whose `discarded` flag is already set raises
`AssertionError`; discarding a fresh worker sets the flag and delivers
exactly one discard notification to the executor (the `1` in the result
counts the `_worker_discarded` calls made). -/
theorem discard_semantics (w : WorkerState) (e : ExecutorState) :
    (w.discarded = true → discard w e = .error .assertionError)
    ∧ (w.discarded = false →
        discard w e = .ok ({ discarded := true }, worker_discarded e, 1)) := by
  constructor <;> intro h <;> simp [discard, h]

theorem discard_semantics_witness :
    discard { discarded := true } (ExecutorState.init "x" 1 1)
      = .error .assertionError
    ∧ discard { discarded := false } (ExecutorState.init "x" 1 1)
      = .ok ({ discarded := true },
             worker_discarded (ExecutorState.init "x" 1 1), 1) :=
  ⟨(discard_semantics _ _).1 rfl, (discard_semantics _ _).2 rfl⟩

/-- C4 as stated is false: `start` only checks the current value of
`running`, so after `stop` (which resets `running` to false) a further
`start` succeeds.  Concretely, for the executor `init "x" 1 2`, the call
sequence start; stop; start raises nothing and leaves `running = true`. -/
theorem restart_counterexample :
    (stop (start (ExecutorState.init "x" 1 2)).1).1.running = false
    ∧ (start (stop (start (ExecutorState.init "x" 1 2)).1).1).2 = none
    ∧ (start (stop (start (ExecutorState.init "x" 1 2)).1).1).1.running
        = true := by
  decide

/-- C4 amended: `running` is false initially; `start` succeeds exactly when
`running` is false (raising `AlreadyStarted` exactly when it is true) and
always leaves `running` true; `stop` always sets `running` to false; but the
flag is not a one-way gate — a `start` after a `stop` succeeds again. -/
theorem lifecycle_semantics (nm : String) (wc mt : Nat) (e : ExecutorState) :
    (ExecutorState.init nm wc mt).running = false
    ∧ ((start e).2 = none ↔ e.running = false)
    ∧ ((start e).2 = some .alreadyStarted ↔ e.running = true)
    ∧ (start e).1.running = true
    ∧ (stop e).1.running = false
    ∧ (start (stop e).1).2 = none := by
  have hrun : ∀ e' : ExecutorState, e'.running = false → (start e').2 = none := by
    intro e' h'
    simp [start, h']
  refine ⟨rfl, ?_, ?_, ?_, ?_, ?_⟩
  · by_cases h : e.running <;> simp [start, h]
  · by_cases h : e.running <;> simp [start, h]
  · by_cases h : e.running
    · simp [start, h]
    · simp only [start, h, if_false]
      exact (addWorkers_proj e.workers_count _).1
  · simp [stop]
  · exact hrun _ (by simp [stop])

/-- C5 as stated is false: `stop` enqueues the sentinels through
`TaskQueue.put`, which raises `TooManyTasks` once the queue is full, so an
executor configured with more worker slots than queue capacity cannot stop
without error.  Concretely, `init "x" 2 1` (two workers, capacity one),
once started, raises `TooManyTasks` from `stop`. -/
theorem stop_overflow_counterexample :
    (stop (start (ExecutorState.init "x" 2 1)).1).2 = some .tooManyTasks := by
  decide

theorem putStops_ok (n : Nat) :
    ∀ q : TaskQueue, q.tasks.length + n ≤ q.max_tasks →
      putStops q n = ({ q with tasks := q.tasks ++ List.replicate n .stop }, none) := by
  induction n with
  | zero => intro q h; simp [putStops]
  | succ n ih =>
    intro q h
    have hne : q.tasks.length ≠ q.max_tasks := by omega
    have hput : q.put .stop = .ok { q with tasks := q.tasks ++ [.stop] } := by
      simp [put_eq, hne]
    rw [putStops, hput]
    show putStops { q with tasks := q.tasks ++ [QItem.stop] } n
      = ({ q with tasks := q.tasks ++ List.replicate (n + 1) .stop }, none)
    rw [ih { q with tasks := q.tasks ++ [.stop] } (by simp; omega)]
    simp [List.append_assoc, List.replicate_succ]

/-- C5 amended: whenever the configured worker count does not exceed the
queue capacity, `stop` sets `running` to false, clears all pending queued
work, enqueues exactly one stop sentinel per configured worker slot, and
completes without error.  (When the worker count exceeds the capacity,
`stop` raises `TooManyTasks`; see the counterexample.) -/
theorem stop_semantics (e : ExecutorState)
    (h : e.workers_count ≤ e.tasks.max_tasks) :
    (stop e).1.running = false
    ∧ (stop e).1.tasks.tasks = List.replicate e.workers_count .stop
    ∧ (stop e).2 = none := by
  have hp := putStops_ok e.workers_count
    { e.tasks with tasks := [] } (by simpa using h)
  refine ⟨by simp [stop], ?_, ?_⟩
  · simp [stop, TaskQueue.clear, hp]
  · simp [stop, TaskQueue.clear, hp]

theorem execute_task_exit (w : WorkerState) (inp : IterInput)
    (w' : WorkerState) (evs : List Event) (ex : Option IterExit)
    (h : execute_task w inp = (w', evs, ex)) (hex : ex.isSome) (rest : List IterInput) :
    (runWorker w (inp :: rest)).fetches = 1
    ∧ (runWorker w (inp :: rest)).exitReason = ex
    ∧ Event.stoppedNotified ∈ (runWorker w (inp :: rest)).events := by
  cases ex with
  | none => simp at hex
  | some r =>
    rw [runWorker]
    split
    · rename_i w2 evs2 r2 heq
      rw [h] at heq
      cases heq
      exact ⟨rfl, rfl, by simp⟩
    · rename_i w2 evs2 heq
      rw [h] at heq
      cases heq

theorem execute_task_continue (w : WorkerState) (inp : IterInput)
    (w' : WorkerState) (evs : List Event)
    (h : execute_task w inp = (w', evs, none)) (rest : List IterInput) :
    (runWorker w (inp :: rest)).fetches = (runWorker w' rest).fetches + 1
    ∧ (runWorker w (inp :: rest)).exitReason = (runWorker w' rest).exitReason := by
  rw [runWorker]
  split
  · rename_i w2 evs2 r2 heq
    rw [h] at heq
    cases heq
  · rename_i w2 evs2 heq
    rw [h] at heq
    cases heq
    exact ⟨rfl, rfl⟩

theorem execute_task_discarded (w : WorkerState) (t : Task)
    (ht : t.timeout.isSome = true) :
    (execute_task w { item := .task t, timerFires := true }).1.discarded = true
    ∧ (execute_task w { item := .task t, timerFires := true }).2.2
        = some .workerDiscarded
    ∧ Event.invoked t ∈ (execute_task w { item := .task t, timerFires := true }).2.1
    ∧ Event.timerCancelled ∈ (execute_task w { item := .task t, timerFires := true }).2.1 := by
  obtain ⟨c, tmo⟩ := t
  cases tmo with
  | none => simp at ht
  | some d => cases c <;> simp [execute_task]

theorem execute_task_clean (w : WorkerState) (t : Task)
    (hw : w.discarded = false) :
    (execute_task w { item := .task t, timerFires := false }).1
      = { discarded := false }
    ∧ (execute_task w { item := .task t, timerFires := false }).2.2 = none
    ∧ Event.invoked t ∈ (execute_task w { item := .task t, timerFires := false }).2.1 := by
  obtain ⟨c, tmo⟩ := t
  cases tmo <;> cases c <;> simp [execute_task, hw]

/-- C1: if a worker's `discarded` flag is set during an iteration (the
discard timer fires before the `finally` check), the worker still finishes
invoking the task it holds, the iteration ends in `_WorkerDiscarded`, the
worker performs no further fetch from the queue (its fetch count for the
whole loop is exactly this iteration's), and its thread function returns
(notifying `_worker_stopped`); a worker that is not discarded in the
iteration goes back to fetching the next task. -/
theorem worker_discard_exit (w : WorkerState) (t : Task)
    (inp : IterInput) (rest : List IterInput) :
    (t.timeout.isSome = true →
      (execute_task w { item := .task t, timerFires := true }).2.2
          = some .workerDiscarded
      ∧ Event.invoked t ∈ (execute_task w { item := .task t, timerFires := true }).2.1)
    ∧ ((execute_task w inp).2.2 = some .workerDiscarded →
        (runWorker w (inp :: rest)).fetches = 1
        ∧ (runWorker w (inp :: rest)).exitReason = some .workerDiscarded
        ∧ Event.stoppedNotified ∈ (runWorker w (inp :: rest)).events)
    ∧ (w.discarded = false →
        (runWorker w (({ item := .task t, timerFires := false } : IterInput) :: rest)).fetches
          = (runWorker { discarded := false } rest).fetches + 1) := by
  refine ⟨fun ht => ?_, fun hex => ?_, fun hw => ?_⟩
  · obtain ⟨-, h2, h3, -⟩ := execute_task_discarded w t ht
    exact ⟨h2, h3⟩
  · rcases hE : execute_task w inp with ⟨w', evs, ex⟩
    rw [hE] at hex
    simp only at hex
    obtain ⟨f1, f2, f3⟩ :=
      execute_task_exit w inp w' evs ex hE (by rw [hex]; rfl) rest
    exact ⟨f1, by rw [f2, hex], f3⟩
  · obtain ⟨g1, g2, -⟩ := execute_task_clean w t hw
    rcases hE : execute_task w { item := .task t, timerFires := false }
      with ⟨w', evs, ex⟩
    rw [hE] at g1 g2
    simp only at g1 g2
    subst g1 g2
    exact (execute_task_continue w _ _ evs hE rest).1

theorem worker_discard_exit_witness :
    (execute_task { discarded := false }
        { item := .task { callable := .ok, timeout := some 5 }, timerFires := true }).2.2
      = some .workerDiscarded
    ∧ (runWorker { discarded := false }
        [{ item := .task { callable := .ok, timeout := some 5 }, timerFires := true },
         { item := .task { callable := .ok, timeout := none }, timerFires := false }]).fetches
      = 1
    ∧ (runWorker { discarded := false }
        [({ item := .task { callable := .ok, timeout := none }, timerFires := false } : IterInput)]).fetches
      = (runWorker { discarded := false } ([] : List IterInput)).fetches + 1 :=
  ⟨((worker_discard_exit { discarded := false }
      { callable := .ok, timeout := some 5 }
      { item := .task { callable := .ok, timeout := some 5 }, timerFires := true }
      []).1 (by decide)).1,
   ((worker_discard_exit { discarded := false }
      { callable := .ok, timeout := some 5 }
      { item := .task { callable := .ok, timeout := some 5 }, timerFires := true }
      [{ item := .task { callable := .ok, timeout := none }, timerFires := false }]).2.1
      (by decide)).1,
   (worker_discard_exit { discarded := false }
      { callable := .ok, timeout := none }
      { item := .stop, timerFires := false } []).2.2 rfl⟩

/-- C8: a task whose callable raises is logged at the worker boundary
(`loggedException` is recorded), the exception does not end the iteration
(no `NotRunning` or `_WorkerDiscarded` arises from it when the worker is not
discarded), and a non-discarded worker goes on to fetch and run the
remaining tasks exactly as it would after a clean task. -/
theorem callable_exception_contained (w : WorkerState) (tmo : Option Nat)
    (fires : Bool) (rest : List IterInput) :
    Event.loggedException { callable := .raises, timeout := tmo }
        ∈ (execute_task w { item := .task { callable := .raises, timeout := tmo },
                            timerFires := fires }).2.1
    ∧ (w.discarded = false →
        (execute_task w { item := .task { callable := .raises, timeout := tmo },
                          timerFires := false }).2.2 = none)
    ∧ (w.discarded = false →
        (runWorker w (({ item := .task { callable := .raises, timeout := tmo },
                         timerFires := false } : IterInput) :: rest)).fetches
          = (runWorker { discarded := false } rest).fetches + 1
        ∧ (runWorker w (({ item := .task { callable := .raises, timeout := tmo },
                           timerFires := false } : IterInput) :: rest)).exitReason
          = (runWorker { discarded := false } rest).exitReason) := by
  refine ⟨?_, fun hw => ?_, fun hw => ?_⟩
  · cases tmo <;> simp [execute_task]
  · exact (execute_task_clean w _ hw).2.1
  · obtain ⟨g1, g2, -⟩ := execute_task_clean w
      { callable := .raises, timeout := tmo } hw
    rcases hE : execute_task w
      { item := .task { callable := .raises, timeout := tmo }, timerFires := false }
      with ⟨w2, evs, ex⟩
    rw [hE] at g1 g2
    simp only at g1 g2
    subst g1 g2
    exact execute_task_continue w _ _ evs hE rest

theorem callable_exception_contained_witness :
    Event.loggedException { callable := .raises, timeout := none }
        ∈ (execute_task { discarded := false }
            { item := .task { callable := .raises, timeout := none },
              timerFires := false }).2.1
    ∧ (execute_task { discarded := false }
        { item := .task { callable := .raises, timeout := none },
          timerFires := false }).2.2 = none
    ∧ (runWorker { discarded := false }
        [({ item := .task { callable := .raises, timeout := none },
            timerFires := false } : IterInput),
         { item := .stop, timerFires := false }]).fetches
      = (runWorker { discarded := false }
          [({ item := .stop, timerFires := false } : IterInput)]).fetches + 1 :=
  ⟨(callable_exception_contained { discarded := false } none false []).1,
   (callable_exception_contained { discarded := false } none false []).2.1 rfl,
   ((callable_exception_contained { discarded := false } none false
      [{ item := .stop, timerFires := false }]).2.2 rfl).1⟩

theorem stop_semantics_witness :
    (stop (start (ExecutorState.init "x" 2 3)).1).1.running = false
    ∧ (stop (start (ExecutorState.init "x" 2 3)).1).1.tasks.tasks
        = List.replicate (start (ExecutorState.init "x" 2 3)).1.workers_count .stop
    ∧ (stop (start (ExecutorState.init "x" 2 3)).1).2 = none :=
  stop_semantics (start (ExecutorState.init "x" 2 3)).1 (by decide)

theorem digitChar_injOn :
    ∀ a < 10, ∀ b < 10, Nat.digitChar a = Nat.digitChar b → a = b := by
  decide

theorem natDecimal_lt (n : Nat) (h : n < 10) :
    natDecimal n = [Nat.digitChar n] := by
  rw [natDecimal]
  exact dif_pos h

theorem natDecimal_ge (n : Nat) (h : ¬ n < 10) :
    natDecimal n = natDecimal (n / 10) ++ [Nat.digitChar (n % 10)] := by
  conv_lhs => rw [natDecimal]
  exact dif_neg h

theorem natDecimal_ne_nil (n : Nat) : natDecimal n ≠ [] := by
  by_cases h : n < 10
  · rw [natDecimal_lt n h]
    simp
  · rw [natDecimal_ge n h]
    simp

theorem natDecimal_inj : ∀ m n : Nat, natDecimal m = natDecimal n → m = n := by
  intro m
  induction m using Nat.strong_induction_on with
  | _ m ih =>
    intro n h
    by_cases hm : m < 10 <;> by_cases hn : n < 10
    · rw [natDecimal_lt m hm, natDecimal_lt n hn] at h
      simp only [List.cons.injEq, and_true] at h
      exact digitChar_injOn m hm n hn h
    · rw [natDecimal_lt m hm, natDecimal_ge n hn] at h
      have hl := congrArg List.length h
      simp only [List.length_cons, List.length_nil, List.length_append] at hl
      have h0 : (natDecimal (n / 10)).length = 0 := by omega
      exact absurd (List.length_eq_zero.mp h0) (natDecimal_ne_nil _)
    · rw [natDecimal_ge m hm, natDecimal_lt n hn] at h
      have hl := congrArg List.length h
      simp only [List.length_cons, List.length_nil, List.length_append] at hl
      have h0 : (natDecimal (m / 10)).length = 0 := by omega
      exact absurd (List.length_eq_zero.mp h0) (natDecimal_ne_nil _)
    · rw [natDecimal_ge m hm, natDecimal_ge n hn] at h
      obtain ⟨h1, h2⟩ := List.append_inj' h rfl
      have hdiv := ih (m / 10) (Nat.div_lt_self (by omega) (by omega)) (n / 10) h1
      have hmod : m % 10 = n % 10 := by
        refine digitChar_injOn _ (Nat.mod_lt _ (by omega)) _ (Nat.mod_lt _ (by omega)) ?_
        simpa using h2
      omega

theorem toDigitsCore_eq_natDecimal :
    ∀ (f n : Nat) (l : List Char), n < f →
      Nat.toDigitsCore 10 f n l = natDecimal n ++ l := by
  intro f
  induction f with
  | zero => intro n l h; omega
  | succ f ih =>
    intro n l h
    simp only [Nat.toDigitsCore]
    by_cases h0 : n / 10 = 0
    · have hn : n < 10 := by omega
      have hm : n % 10 = n := by omega
      rw [if_pos h0, hm, natDecimal_lt n hn, List.singleton_append]
    · rw [if_neg h0]
      rw [ih (n / 10) (Nat.digitChar (n % 10) :: l) (by omega)]
      rw [natDecimal_ge n (by omega), List.append_assoc, List.singleton_append]

theorem repr_eq_natDecimal (n : Nat) : Nat.repr n = (natDecimal n).asString := by
  show (Nat.toDigitsCore 10 (n + 1) n []).asString = (natDecimal n).asString
  rw [toDigitsCore_eq_natDecimal (n + 1) n [] (Nat.lt_succ_self n),
    List.append_nil]

theorem nat_repr_injective {m n : Nat} (h : Nat.repr m = Nat.repr n) : m = n := by
  rw [repr_eq_natDecimal, repr_eq_natDecimal] at h
  exact natDecimal_inj m n (List.asString_inj.mp h)

theorem workerName_inj {nm : String} {i j : Nat}
    (h : workerName nm i = workerName nm j) : i = j := by
  unfold workerName at h
  have hd := congrArg String.data h
  simp only [String.data_append] at hd
  exact nat_repr_injective (String.ext (List.append_cancel_left hd))

theorem add_worker_created (e : ExecutorState)
    (h : e.created = (List.range e.worker_id).map (workerName e.name)) :
    (add_worker e).created
      = (List.range (add_worker e).worker_id).map (workerName e.name) := by
  simp only [add_worker, ExecutorState.next_worker_name]
  rw [List.range_succ, List.map_append, ← h]
  rfl

theorem applyExOp_inv (e : ExecutorState) (op : ExOp)
    (h : e.created = (List.range e.worker_id).map (workerName e.name)) :
    (applyExOp e op).name = e.name
    ∧ (applyExOp e op).created
        = (List.range (applyExOp e op).worker_id).map (workerName e.name) := by
  cases op with
  | opStart =>
    simp only [applyExOp, start]
    by_cases hr : e.running
    · rw [if_pos hr]
      exact ⟨rfl, h⟩
    · rw [if_neg hr]
      obtain ⟨-, h2, -, -, h5, h6⟩ :=
        addWorkers_proj e.workers_count { e with running := true }
      refine ⟨by rw [h2], ?_⟩
      rw [h6, h5]
      show e.created ++ (List.range e.workers_count).map
          (fun i => workerName e.name (e.worker_id + i))
        = (List.range (e.worker_id + e.workers_count)).map (workerName e.name)
      rw [List.range_add, List.map_append, List.map_map, h]
      rfl
  | opStop => exact ⟨rfl, h⟩
  | opDispatch c t =>
    simp only [applyExOp, dispatch]
    by_cases hr : e.running
    · rw [if_pos hr]
      cases hp : e.tasks.put (.task { callable := c, timeout := t }) with
      | error ex => exact ⟨rfl, h⟩
      | ok q => exact ⟨rfl, h⟩
    · rw [if_neg hr]
      exact ⟨rfl, h⟩
  | opWorkerDiscarded =>
    simp only [applyExOp, worker_discarded]
    by_cases hr : e.running
    · rw [if_pos hr]
      exact ⟨rfl, add_worker_created e h⟩
    · rw [if_neg hr]
      exact ⟨rfl, h⟩
  | opWorkerStopped w => exact ⟨rfl, h⟩

theorem applyExOps_inv (ops : List ExOp) :
    ∀ e : ExecutorState,
      e.created = (List.range e.worker_id).map (workerName e.name) →
      (applyExOps e ops).name = e.name
      ∧ (applyExOps e ops).created
          = (List.range (applyExOps e ops).worker_id).map (workerName e.name) := by
  induction ops with
  | nil => intro e h; exact ⟨rfl, h⟩
  | cons op ops ih =>
    intro e h
    obtain ⟨h1, h2⟩ := applyExOp_inv e op h
    obtain ⟨h3, h4⟩ := ih (applyExOp e op) (by rw [h1]; exact h2)
    refine ⟨by rw [applyExOps, h3, h1], ?_⟩
    rw [applyExOps, h4, h1]

/-- C10: starting from a fresh executor, after any sequence of start, stop,
dispatch, worker-discarded and worker-stopped calls, the history of all
worker names ever created is exactly
`["<name>/0", "<name>/1", ..., "<name>/<worker_id - 1>"]` (the id counter
strictly increases with each spawn and `stop` does not reset it), and these
names are pairwise distinct. -/
theorem worker_names_distinct (nm : String) (wc mt : Nat) (ops : List ExOp) :
    (applyExOps (ExecutorState.init nm wc mt) ops).created
      = (List.range (applyExOps (ExecutorState.init nm wc mt) ops).worker_id).map
          (workerName nm)
    ∧ ((applyExOps (ExecutorState.init nm wc mt) ops).created).Nodup
    ∧ (stop (applyExOps (ExecutorState.init nm wc mt) ops)).1.worker_id
        = (applyExOps (ExecutorState.init nm wc mt) ops).worker_id := by
  obtain ⟨-, h2⟩ :=
    applyExOps_inv ops (ExecutorState.init nm wc mt) (by simp [ExecutorState.init])
  refine ⟨h2, ?_, rfl⟩
  rw [h2]
  exact (List.nodup_range _).map (fun a b hab => workerName_inj hab)

end Vdsm
